import Mathlib

/-!
Verification of the PicTextify ordered-content model and merge/alignment
engine (`pictextify/text_merger.py`, with the OCR-splicing step of
`pictextify/__init__.py` and the OCR adapter of
`pictextify/ocr_processor.py`).

Content items are the Python tuples `(位置索引, 内容类型, 内容)`:
an ordering key (a Python float, embedded as `ℚ` — the only keys the
program produces are integers and integers plus one half, which `ℚ`
represents exactly), a content-kind string (`"text"`, `"image"`, `"ocr"`),
and a payload string.
-/

deriving instance DecidableEq for Except

namespace PicTextify

structure ContentItem where
  idx : ℚ
  ctype : String
  content : String
deriving DecidableEq, Repr

/-- Python `str.strip()`: drop leading and trailing whitespace. -/
def pyStrip (s : String) : String :=
  ⟨((s.data.dropWhile Char.isWhitespace).reverse.dropWhile Char.isWhitespace).reverse⟩

/-- Python truthiness test `content and content.strip()` used throughout
`text_merger.py`: the payload is non-empty and not whitespace-only. -/
def nonBlank (s : String) : Bool := pyStrip s != ""

/-- Insert an item into an already ascending list, placing it after every
element whose key is `≤` its own: combined with a left-to-right fold this
is a stable sort, the behaviour of Python's `sorted(key=lambda x: x[0])`. -/
def insertItem (a : ContentItem) : List ContentItem → List ContentItem
  | [] => [a]
  | b :: l => if b.idx ≤ a.idx then b :: insertItem a l else a :: b :: l

/-- `sorted(content_items, key=lambda x: x[0])` (stable sort by the key). -/
def sortItems (l : List ContentItem) : List ContentItem :=
  l.foldl (fun acc a => insertItem a acc) []

/-- Ascending-by-key predicate for item lists. -/
abbrev SortedByKey (l : List ContentItem) : Prop :=
  l.Pairwise (fun a b => a.idx ≤ b.idx)

/-- The inner loop of the `ocr_map` construction in `TextMerger.merge`
(`text_merger.py` lines 53–59): the first image in the sorted list whose
key equals `k`. -/
def findImage (l : List ContentItem) (k : ℚ) : Option ContentItem :=
  l.find? (fun it => it.ctype == "image" && decide (it.idx = k))

/-- The `ocr_map` dict of `TextMerger.merge`: a finite map from image
payload (path) to OCR text. -/
def OcrMap := String → Option String

def emptyOcrMap : OcrMap := fun _ => none

/-- One step of the `ocr_map` construction loop (`text_merger.py`
lines 50–59): a non-blank `"ocr"` item whose key equals the key of some
`"image"` item in the sorted list maps that image's path to the OCR text. -/
def ocrStep (s : List ContentItem) (m : OcrMap) (item : ContentItem) : OcrMap :=
  if item.ctype == "ocr" && nonBlank item.content then
    match findImage s item.idx with
    | some img => Function.update m img.content (some item.content)
    | none => m
  else m

/-- The full `ocr_map` built by `TextMerger.merge` from the sorted items. -/
def buildOcrMap (s : List ContentItem) : OcrMap :=
  s.foldl (ocrStep s) emptyOcrMap

/-- The fixed placeholder emitted for an image without an OCR mapping. -/
def placeholder : String := "[图片内容无法识别]"

/-- One iteration of the emission loop of `TextMerger.merge`
(`text_merger.py` lines 63–82): a non-blank `"text"` item is emitted
verbatim; an `"image"` item is replaced by its mapped OCR text when the
map has its path, else by the placeholder; `"ocr"` items, blank `"text"`
items and unknown kinds are skipped. -/
def emitOne (m : OcrMap) (it : ContentItem) : Option String :=
  if it.ctype == "text" && nonBlank it.content then some it.content
  else if it.ctype == "image" then
    match m it.content with
    | some t => some t
    | none => some placeholder
  else none

/-- The list `merged_text` accumulated by the emission loop. -/
def mergeBlocks (items : List ContentItem) : List String :=
  (sortItems items).filterMap (emitOne (buildOcrMap (sortItems items)))

/-- `TextMerger.merge`: early-return `""` on empty input, then
`"\n\n".join(merged_text)` over the emitted blocks. -/
def merge (items : List ContentItem) : String :=
  if items.isEmpty then "" else String.intercalate "\n\n" (mergeBlocks items)

/-! ### Alignment engine (`TextMerger.align_pattern`, `text_merger.py` 112–211)

The Python dict `categorized_content` is embedded as a partial map from
bucket label to list of `(key, rendered content)` pairs; a lookup of a
missing key is a Python `KeyError`, embedded as `Except.error key`. -/

/-- The default pattern list (`text_merger.py` line 127). -/
def defaultPatterns : List String := ["标题", "正文", "图片说明"]

def Buckets := String → Option (List (ℚ × String))

/-- `{pattern: [] for pattern in patterns}` followed by
`categorized_content["其他"] = []` (`text_merger.py` lines 137–138). -/
def initBuckets (patterns : List String) : Buckets :=
  Function.update (fun k => if k ∈ patterns then some [] else none) "其他" (some [])

/-- `categorized_content[key].append(v)`: `KeyError` when the bucket is
absent, otherwise append at the end. -/
def bucketAppend (d : Buckets) (key : String) (v : ℚ × String) :
    Except String Buckets :=
  match d key with
  | none => .error key
  | some l => .ok (Function.update d key (some (l ++ [v])))

/-- `categorized_content[key]` read access (`KeyError` when absent). -/
def bucketGet (d : Buckets) (key : String) : Except String (List (ℚ × String)) :=
  match d key with
  | none => .error key
  | some l => .ok l

/-- Python `content.strip().endswith(("。", ".", "!", "?"))` applied to the
already stripped string: the string ends with one of the four
sentence-terminal marks (all single characters). -/
def endsSentence (s : String) : Bool :=
  match s.data.getLast? with
  | some c => c == '。' || c == '.' || c == '!' || c == '?'
  | none => false

/-- The per-item branch structure of the classification loop
(`text_merger.py` lines 141–175): the bucket label the item is appended
to together with the rendered content, or `none` for a blank item.
Classification uses only the item itself — no cross-item context. -/
def classifyItem (it : ContentItem) : Option (String × String) :=
  if !nonBlank it.content then none
  else if it.ctype == "text" then
    if decide (it.content.length < 100) && endsSentence (pyStrip it.content) then
      some ("标题", it.content)
    else if it.content.data.contains '图' && decide (it.content.length < 200) then
      some ("图片说明", it.content)
    else some ("正文", it.content)
  else if it.ctype == "image" || it.ctype == "ocr" then
    if it.ctype == "ocr" then some ("图片说明", it.content)
    else some ("其他", "[图片: " ++ it.content ++ "]")
  else some ("其他", it.content)

/-- The classification loop over the sorted items (`text_merger.py`
lines 141–175), threading the possibility of a `KeyError` (which in
Python aborts the whole call). -/
def classifyFold : List ContentItem → Buckets → Except String Buckets
  | [], d => .ok d
  | it :: l, d =>
    match classifyItem it with
    | none => classifyFold l d
    | some kv =>
      match bucketAppend d kv.1 (it.idx, kv.2) with
      | .ok d2 => classifyFold l d2
      | .error e => .error e

/-- Stable insertion for key-content pairs, mirroring `insertItem`. -/
def insertPair (a : ℚ × String) : List (ℚ × String) → List (ℚ × String)
  | [] => [a]
  | b :: l => if b.1 ≤ a.1 then b :: insertPair a l else a :: b :: l

/-- `sorted(bucket, key=lambda x: x[0])` used when formatting each section
(`text_merger.py` lines 183, 190, 197, 206). -/
def sortPairs (l : List (ℚ × String)) : List (ℚ × String) :=
  l.foldl (fun acc a => insertPair a acc) []

/-- One output section (`text_merger.py` lines 181–207): heading, then the
bucket contents in ascending key order; the first three sections also
append an empty string after their contents, the `其他` section does not. -/
def sectionPieces (heading : String) (l : List (ℚ × String)) (trailingBlank : Bool) :
    List String :=
  if l.isEmpty then []
  else [heading] ++ (sortPairs l).map Prod.snd ++ (if trailingBlank then [""] else [])

/-- `TextMerger.align_pattern`: default patterns when the argument is
omitted, sort, classify into buckets, then format the four sections and
join with `"\n\n"`.  A Python `KeyError` on a missing bucket label is
`Except.error label`. -/
def align_pattern (ordered_content : List ContentItem)
    (patterns : Option (List String)) : Except String String :=
  (classifyFold (sortItems ordered_content)
      (initBuckets (patterns.getD defaultPatterns))).bind fun d =>
  (bucketGet d "标题").bind fun t =>
  (bucketGet d "正文").bind fun b =>
  (bucketGet d "图片说明").bind fun c =>
  (bucketGet d "其他").bind fun o =>
  .ok (String.intercalate "\n\n"
    (sectionPieces "# 标题" t true ++ sectionPieces "# 正文" b true ++
      sectionPieces "# 图片说明" c true ++ sectionPieces "# 其他内容" o false))

/-! ### OCR adapter (`OCRProcessor.process_single_image`,
`ocr_processor.py` 141–232)

The adapter's external effects are embedded as an oracle record: whether
the image file exists, whether `PIL.Image.open` succeeds, whether the
model set-up code in `_process_with_got_ocr` runs without raising, and
what `model.chat` does (raise, or return a string). -/

structure OcrEnv where
  pathExists : Bool
  canOpen : Bool
  setupOk : Bool
  chat : Except Unit String
deriving DecidableEq, Repr

/-- The sentinel text `_process_with_got_ocr` substitutes whenever the
model raises or returns a blank result (`ocr_processor.py` 217–232). -/
def ocrFailText : String := "【图片文字无法识别】"

/-- `OCRProcessor._process_with_got_ocr` (`ocr_processor.py` 179–232):
any exception in set-up or in `model.chat`, or a blank `model.chat`
result, yields the sentinel text; otherwise the recognized text. -/
def process_with_got_ocr (env : OcrEnv) : String :=
  if !env.setupOk then ocrFailText
  else
    match env.chat with
    | .error _ => ocrFailText
    | .ok r => if r == "" || pyStrip r == "" then ocrFailText else r

/-- `OCRProcessor.process_single_image` (`ocr_processor.py` 141–177):
empty string when the file is missing or cannot be opened, otherwise the
`_process_with_got_ocr` result. -/
def process_single_image (env : OcrEnv) : String :=
  if !env.pathExists then ""
  else if !env.canOpen then ""
  else process_with_got_ocr env

/-! ### Sorting lemmas: `sortItems` is a stable ascending sort. -/

theorem insertItem_perm (a : ContentItem) (l : List ContentItem) :
    List.Perm (insertItem a l) (a :: l) := by
  induction l with
  | nil => exact List.Perm.refl _
  | cons b l ih =>
    simp only [insertItem]
    split
    · exact (ih.cons b).trans (List.Perm.swap a b l)
    · exact List.Perm.refl _

theorem foldl_insert_perm (l acc : List ContentItem) :
    List.Perm (l.foldl (fun acc a => insertItem a acc) acc) (acc ++ l) := by
  induction l generalizing acc with
  | nil => simp
  | cons a l ih =>
    refine ((ih (insertItem a acc)).trans ?_)
    refine (((insertItem_perm a acc).append_right l).trans ?_)
    exact List.perm_middle.symm

theorem sortItems_perm (l : List ContentItem) : List.Perm (sortItems l) l :=
  foldl_insert_perm l []

theorem mem_insertItem {x a : ContentItem} {l : List ContentItem} :
    x ∈ insertItem a l ↔ x = a ∨ x ∈ l := by
  rw [(insertItem_perm a l).mem_iff, List.mem_cons]

theorem insertItem_sorted {l : List ContentItem} (a : ContentItem)
    (h : SortedByKey l) : SortedByKey (insertItem a l) := by
  induction l with
  | nil => simp [insertItem]
  | cons b l ih =>
    obtain ⟨hb, hl⟩ := List.pairwise_cons.mp h
    simp only [insertItem]
    split
    · rename_i hba
      refine List.pairwise_cons.mpr ⟨fun x hx => ?_, ih hl⟩
      rcases mem_insertItem.mp hx with rfl | hx
      · exact hba
      · exact hb x hx
    · rename_i hba
      have hab : a.idx ≤ b.idx := le_of_not_le hba
      refine List.pairwise_cons.mpr ⟨fun x hx => ?_, List.pairwise_cons.mpr ⟨hb, hl⟩⟩
      rcases List.mem_cons.mp hx with rfl | hx
      · exact hab
      · exact hab.trans (hb x hx)

theorem sortItems_sorted (l : List ContentItem) : SortedByKey (sortItems l) := by
  have key : ∀ (l acc : List ContentItem), SortedByKey acc →
      SortedByKey (l.foldl (fun acc a => insertItem a acc) acc) := by
    intro l
    induction l with
    | nil => intro acc h; exact h
    | cons a l ih => intro acc h; exact ih _ (insertItem_sorted a h)
  exact key l [] List.Pairwise.nil

theorem insertItem_append {a : ContentItem} {l : List ContentItem}
    (h : ∀ b ∈ l, b.idx ≤ a.idx) : insertItem a l = l ++ [a] := by
  induction l with
  | nil => rfl
  | cons b l ih =>
    simp only [insertItem, h b (List.mem_cons_self b l), if_true]
    rw [ih fun x hx => h x (List.mem_cons_of_mem b hx)]
    simp

theorem filter_insertItem (p : ContentItem → Bool) {l : List ContentItem}
    (a : ContentItem) (h : SortedByKey l) :
    (insertItem a l).filter p =
      if p a then insertItem a (l.filter p) else l.filter p := by
  induction l with
  | nil =>
    by_cases hpa : p a <;> simp [insertItem, List.filter, hpa]
  | cons b l ih =>
    obtain ⟨hb, hl⟩ := List.pairwise_cons.mp h
    simp only [insertItem]
    by_cases hba : b.idx ≤ a.idx
    · rw [if_pos hba]
      by_cases hpb : p b
      · simp only [List.filter_cons, hpb, if_pos, ih hl]
        by_cases hpa : p a
        · simp [hpa, insertItem, hba]
        · simp [hpa]
      · simp only [List.filter_cons, hpb, Bool.false_eq_true, if_false]
        exact ih hl
    · rw [if_neg hba]
      have hab : a.idx < b.idx := lt_of_not_le hba
      by_cases hpa : p a
      · simp only [List.filter_cons, hpa, if_pos]
        by_cases hpb : p b
        · simp only [hpb, if_pos, insertItem, if_neg hba]
        · simp only [hpb, Bool.false_eq_true, if_false]
          have hstep : ∀ x ∈ l.filter p, ¬ x.idx ≤ a.idx := by
            intro x hx
            have hxl : x ∈ l := List.mem_of_mem_filter hx
            exact not_le_of_lt (lt_of_lt_of_le hab (hb x hxl))
          cases hfl : l.filter p with
          | nil => rfl
          | cons c cs =>
            have hc : ¬ c.idx ≤ a.idx := by
              apply hstep; rw [hfl]; exact List.mem_cons_self c cs
            simp [insertItem, hc]
      · simp [List.filter_cons, hpa]

theorem sortItems_filter (p : ContentItem → Bool) (l : List ContentItem) :
    (sortItems l).filter p = sortItems (l.filter p) := by
  have key : ∀ (l acc : List ContentItem), SortedByKey acc →
      (l.foldl (fun acc a => insertItem a acc) acc).filter p =
        (l.filter p).foldl (fun acc a => insertItem a acc) (acc.filter p) := by
    intro l
    induction l with
    | nil => intro acc _; rfl
    | cons a l ih =>
      intro acc hacc
      simp only [List.foldl_cons, List.filter_cons]
      rw [ih _ (insertItem_sorted a hacc), filter_insertItem p a hacc]
      by_cases hpa : p a
      · simp [hpa]
      · simp [hpa]
  have h2 := key l [] List.Pairwise.nil
  rw [List.filter_nil] at h2
  exact h2

theorem sortItems_uniform {l : List ContentItem} {k : ℚ}
    (h : ∀ x ∈ l, x.idx = k) : sortItems l = l := by
  have key : ∀ (l acc : List ContentItem), (∀ x ∈ acc, x.idx = k) →
      (∀ x ∈ l, x.idx = k) →
      l.foldl (fun acc a => insertItem a acc) acc = acc ++ l := by
    intro l
    induction l with
    | nil => intro acc _ _; simp
    | cons a l ih =>
      intro acc hacc hl
      have ha : a.idx = k := hl a (List.mem_cons_self a l)
      simp only [List.foldl_cons]
      rw [insertItem_append (fun b hb => by rw [hacc b hb, ha])]
      rw [ih _ (fun x hx => by
            rcases List.mem_append.mp hx with hx | hx
            · exact hacc x hx
            · rw [List.mem_singleton.mp hx]; exact ha)
          (fun x hx => hl x (List.mem_cons_of_mem a hx))]
      simp
  have h2 := key l [] (by simp) h
  simpa using h2

/-- Stability of `sortItems`: the subsequence of items carrying any given
key is exactly preserved (equal keys are never reordered). -/
theorem sortItems_stable (l : List ContentItem) (k : ℚ) :
    (sortItems l).filter (fun it => decide (it.idx = k)) =
      l.filter (fun it => decide (it.idx = k)) := by
  rw [sortItems_filter]
  exact sortItems_uniform fun x hx => of_decide_eq_true (List.mem_filter.mp hx).2

/-! ### The `ocr_map` characterization. -/

/-- What it means for `path ↦ t` to be an entry the `ocr_map` loop can
create over the sorted list `s`. -/
def MapWitness (s : List ContentItem) (path t : String) : Prop :=
  ∃ o ∈ s, o.ctype = "ocr" ∧ nonBlank o.content = true ∧ t = o.content ∧
    ∃ img, findImage s o.idx = some img ∧ img.content = path

theorem ocrStep_some {s : List ContentItem} {m : OcrMap} {item : ContentItem}
    {path t : String} (hmem : item ∈ s)
    (h : ocrStep s m item path = some t) :
    m path = some t ∨ MapWitness s path t := by
  unfold ocrStep at h
  by_cases hc : (item.ctype == "ocr" && nonBlank item.content) = true
  · rw [if_pos hc] at h
    obtain ⟨ho, hnb⟩ := Bool.and_eq_true_iff.mp hc
    cases hfind : findImage s item.idx with
    | none => rw [hfind] at h; exact Or.inl h
    | some img =>
      rw [hfind] at h
      have h2 : Function.update m img.content (some item.content) path = some t := h
      rw [Function.update_apply] at h2
      by_cases hpath : path = img.content
      · rw [if_pos hpath] at h2
        refine Or.inr ⟨item, hmem, eq_of_beq ho, hnb, ?_, img, hfind, hpath.symm⟩
        exact (Option.some_inj.mp h2).symm
      · rw [if_neg hpath] at h2
        exact Or.inl h2
  · rw [if_neg hc] at h
    exact Or.inl h

theorem foldl_ocrStep_some {s : List ContentItem} :
    ∀ (l : List ContentItem) (m : OcrMap), (∀ x ∈ l, x ∈ s) →
      (∀ path t, m path = some t → MapWitness s path t) →
      ∀ path t, (l.foldl (ocrStep s) m) path = some t → MapWitness s path t := by
  intro l
  induction l with
  | nil => intro m _ hm path t h; exact hm path t h
  | cons x xs ih =>
    intro m hsub hm path t h
    refine ih (ocrStep s m x) (fun y hy => hsub y (List.mem_cons_of_mem x hy))
      (fun path' t' h' => ?_) path t h
    rcases ocrStep_some (hsub x (List.mem_cons_self x xs)) h' with h'' | h''
    · exact hm path' t' h''
    · exact h''

/-- Any entry of the final `ocr_map` comes from a non-blank `"ocr"` item
whose key matched an image of the sorted list. -/
theorem buildOcrMap_some {s : List ContentItem} {path t : String}
    (h : buildOcrMap s path = some t) : MapWitness s path t :=
  foldl_ocrStep_some s emptyOcrMap (fun _ hx => hx)
    (fun _ _ h' => by simp [emptyOcrMap] at h') path t h

theorem ocrStep_isSome {s : List ContentItem} {m : OcrMap} {path : String}
    (item : ContentItem) (h : (m path).isSome) :
    ((ocrStep s m item) path).isSome := by
  unfold ocrStep
  by_cases hc : (item.ctype == "ocr" && nonBlank item.content) = true
  · rw [if_pos hc]
    cases hfind : findImage s item.idx with
    | none => exact h
    | some img =>
      show ((Function.update m img.content (some item.content)) path).isSome = true
      rw [Function.update_apply]
      by_cases hpath : path = img.content
      · rw [if_pos hpath]; rfl
      · rw [if_neg hpath]; exact h
  · rw [if_neg hc]; exact h

theorem foldl_ocrStep_isSome {s : List ContentItem} {path : String} :
    ∀ (l : List ContentItem) (m : OcrMap), (m path).isSome →
      ((l.foldl (ocrStep s) m) path).isSome := by
  intro l
  induction l with
  | nil => intro m h; exact h
  | cons x xs ih => intro m h; exact ih _ (ocrStep_isSome x h)

/-- If some non-blank `"ocr"` item of the sorted list finds an image with
payload `path`, the final `ocr_map` is defined at `path`. -/
theorem buildOcrMap_isSome {s : List ContentItem} {o img : ContentItem}
    {path : String} (ho : o ∈ s) (hocr : o.ctype = "ocr")
    (hnb : nonBlank o.content = true)
    (hfind : findImage s o.idx = some img) (hpath : img.content = path) :
    ((buildOcrMap s) path).isSome := by
  obtain ⟨l₁, l₂, rfl⟩ := List.append_of_mem ho
  unfold buildOcrMap
  rw [List.foldl_append, List.foldl_cons]
  refine foldl_ocrStep_isSome l₂ _ ?_
  unfold ocrStep
  rw [if_pos (by rw [hocr, hnb]; rfl), hfind]
  show ((Function.update
      (List.foldl (ocrStep (l₁ ++ o :: l₂)) emptyOcrMap l₁) img.content
      (some o.content)) path).isSome = true
  rw [Function.update_apply, if_pos hpath.symm]
  rfl

/-- If the key of no non-blank `"ocr"` item resolves via `findImage` to an
image carrying `path`, the final `ocr_map` has no entry at `path`. -/
theorem buildOcrMap_none {s : List ContentItem} {path : String}
    (h : ∀ o ∈ s, o.ctype = "ocr" → nonBlank o.content = true →
      ∀ img, findImage s o.idx = some img → img.content ≠ path) :
    buildOcrMap s path = none := by
  cases hm : buildOcrMap s path with
  | none => rfl
  | some t =>
    obtain ⟨o, ho, hocr, hnb, _, img, hfind, hpath⟩ := buildOcrMap_some hm
    exact absurd hpath (h o ho hocr hnb img hfind)

/-- Every text stored in the `ocr_map` is non-blank. -/
theorem buildOcrMap_nonBlank {s : List ContentItem} {path t : String}
    (h : buildOcrMap s path = some t) : nonBlank t = true := by
  obtain ⟨o, _, _, hnb, rfl, _⟩ := buildOcrMap_some h
  exact hnb

/-! ### `findImage` facts. -/

theorem findImage_spec {s : List ContentItem} {k : ℚ} {img : ContentItem}
    (h : findImage s k = some img) :
    img ∈ s ∧ img.ctype = "image" ∧ img.idx = k := by
  have hmem := List.mem_of_find?_eq_some h
  have hp := List.find?_some h
  obtain ⟨h1, h2⟩ := Bool.and_eq_true_iff.mp hp
  exact ⟨hmem, eq_of_beq h1, of_decide_eq_true h2⟩

theorem findImage_isSome {s : List ContentItem} {i : ContentItem}
    (hi : i ∈ s) (himg : i.ctype = "image") :
    ∃ img, findImage s i.idx = some img := by
  cases hfind : findImage s i.idx with
  | some img => exact ⟨img, rfl⟩
  | none =>
    rw [findImage, List.find?_eq_none] at hfind
    exact absurd (by rw [himg]; simp) (hfind i hi)

/-! ### Emission facts. -/

theorem emitOne_ocr (m : OcrMap) {it : ContentItem} (h : it.ctype = "ocr") :
    emitOne m it = none := by
  simp [emitOne, h]

theorem emitOne_other (m : OcrMap) {it : ContentItem}
    (ht : it.ctype ≠ "text") (hi : it.ctype ≠ "image") :
    emitOne m it = none := by
  simp [emitOne, ht, hi]

theorem emitOne_blank_text (m : OcrMap) {it : ContentItem}
    (h : it.ctype = "text") (hb : nonBlank it.content = false) :
    emitOne m it = none := by
  simp [emitOne, h, hb]

theorem emitOne_text (m : OcrMap) {it : ContentItem}
    (h : it.ctype = "text") (hb : nonBlank it.content = true) :
    emitOne m it = some it.content := by
  simp [emitOne, h, hb]

theorem emitOne_image (m : OcrMap) {it : ContentItem} (h : it.ctype = "image") :
    emitOne m it = some ((m it.content).getD placeholder) := by
  simp only [emitOne, h]
  cases hm : m it.content <;> simp [hm]

/-- `merge` is always the `"\n\n"`-join of the emitted block list (the
early return for empty input coincides with the join of no blocks). -/
theorem merge_eq_intercalate (items : List ContentItem) :
    merge items = String.intercalate "\n\n" (mergeBlocks items) := by
  unfold merge
  cases items with
  | nil => rfl
  | cons x xs => rfl

/-! ### Removing no-op items from folds and emission. -/

theorem filterMap_filter_eq {α β : Type} (g : α → Option β) (p : α → Bool)
    (l : List α) (h : ∀ x ∈ l, p x = false → g x = none) :
    (l.filter p).filterMap g = l.filterMap g := by
  induction l with
  | nil => rfl
  | cons x xs ih =>
    have ihx := ih fun y hy => h y (List.mem_cons_of_mem x hy)
    by_cases hpx : p x
    · simp only [List.filter_cons, hpx, if_pos, List.filterMap_cons]
      cases g x <;> simp [ihx]
    · have hgx : g x = none := h x (List.mem_cons_self x xs) (Bool.not_eq_true _ ▸
        Bool.of_not_eq_true hpx)
      simp only [List.filter_cons, List.filterMap_cons, hgx]
      simp only [Bool.not_eq_true] at hpx
      simp [hpx, ihx]

theorem foldl_filter_noop {α β : Type} (f : β → α → β) (p : α → Bool)
    (l : List α) (h : ∀ x ∈ l, p x = false → ∀ acc, f acc x = acc) :
    ∀ init, (l.filter p).foldl f init = l.foldl f init := by
  induction l with
  | nil => intro init; rfl
  | cons x xs ih =>
    intro init
    have ihx := ih fun y hy => h y (List.mem_cons_of_mem x hy)
    by_cases hpx : p x
    · simp [List.filter_cons, hpx, ihx]
    · simp only [Bool.not_eq_true] at hpx
      simp only [List.filter_cons, hpx, Bool.false_eq_true, if_false, List.foldl_cons]
      rw [h x (List.mem_cons_self x xs) hpx init]
      exact ihx init

/-! ### Splitting a sorted list around an adjacent image/text pair. -/

theorem sorted_split {i t : ContentItem} {k : ℚ}
    (hik : i.idx = k) (htk : t.idx = k + 1/2) :
    ∀ s : List ContentItem, SortedByKey s → i ∈ s → t ∈ s →
      (∀ x ∈ s, x = i ∨ x = t ∨ x.idx < k ∨ k + 1/2 < x.idx) →
      ∃ A B, s = A ++ i :: t :: B := by
  have hklt : k < k + 1/2 := lt_add_of_pos_right k (by norm_num)
  have hit : i ≠ t := fun he => by rw [he, htk] at hik; exact absurd hik (ne_of_gt hklt)
  intro s
  induction s with
  | nil => intro _ hi _ _; cases hi
  | cons hd tl ih =>
    intro hs hi ht hclass
    obtain ⟨hhead, htl⟩ := List.pairwise_cons.mp hs
    by_cases hhi : hd = i
    · have httl : t ∈ tl := by
        rcases List.mem_cons.mp ht with he | he
        · exact absurd (he.trans hhi) (Ne.symm hit)
        · exact he
      cases tl with
      | nil => cases httl
      | cons h2 tl2 =>
        rcases hclass h2 (List.mem_cons_of_mem _ (List.mem_cons_self h2 tl2))
          with h2i | h2t | h2lt | h2gt
        · obtain ⟨A, B, hAB⟩ := ih htl
            (by rw [← h2i]; exact List.mem_cons_self h2 tl2) httl
            fun x hx => hclass x (List.mem_cons_of_mem _ hx)
          exact ⟨hd :: A, B, by rw [hAB]; rfl⟩
        · exact ⟨[], tl2, by rw [hhi, h2t]; rfl⟩
        · refine absurd h2lt (not_lt_of_le ?_)
          rw [← hik, ← hhi]
          exact hhead h2 (List.mem_cons_self h2 tl2)
        · exfalso
          have httl2 : t ∈ tl2 := by
            rcases List.mem_cons.mp httl with he | he
            · exfalso; rw [← he, htk] at h2gt; exact lt_irrefl _ h2gt
            · exact he
          have hle : h2.idx ≤ t.idx := (List.pairwise_cons.mp htl).1 t httl2
          rw [htk] at hle
          exact absurd (lt_of_lt_of_le h2gt hle) (lt_irrefl _)
    · have hitl : i ∈ tl := by
        rcases List.mem_cons.mp hi with he | he
        · exact absurd he.symm hhi
        · exact he
      have hht : hd ≠ t := by
        intro he
        have := hhead i hitl
        rw [he, htk, hik] at this
        exact absurd (lt_of_lt_of_le hklt this) (lt_irrefl _)
      have httl : t ∈ tl := by
        rcases List.mem_cons.mp ht with he | he
        · exact absurd he.symm hht
        · exact he
      obtain ⟨A, B, hAB⟩ := ih htl hitl httl
        fun x hx => hclass x (List.mem_cons_of_mem _ hx)
      exact ⟨hd :: A, B, by rw [hAB]; rfl⟩

/-! ### Bucket characterization for the alignment engine. -/

/-- The four bucket labels the classification loop ever appends to. -/
def big4 : List String := ["标题", "正文", "图片说明", "其他"]

/-- What a run of the classification loop over `l` appends to bucket
`key`, read off pointwise from `classifyItem`. -/
def bucketList (l : List ContentItem) (key : String) : List (ℚ × String) :=
  l.filterMap fun it => (classifyItem it).bind
    fun kv => if kv.1 = key then some (it.idx, kv.2) else none

theorem classifyItem_key_mem {it : ContentItem} {k v : String}
    (h : classifyItem it = some (k, v)) : k ∈ big4 := by
  unfold classifyItem at h
  split_ifs at h <;>
    (obtain ⟨rfl, rfl⟩ := Prod.mk.injEq .. ▸ Option.some_inj.mp h; decide)

theorem bucketAppend_ok {d : Buckets} {key : String} {l0 : List (ℚ × String)}
    (h : d key = some l0) (v : ℚ × String) :
    bucketAppend d key v = .ok (Function.update d key (some (l0 ++ [v]))) := by
  unfold bucketAppend
  rw [h]

theorem classifyFold_ok :
    ∀ (l : List ContentItem) (d0 : Buckets),
      (∀ key ∈ big4, (d0 key).isSome) →
      ∃ d, classifyFold l d0 = .ok d ∧
        ∀ key ∈ big4, d key = some ((d0 key).getD [] ++ bucketList l key) := by
  intro l
  induction l with
  | nil =>
    intro d0 h4
    refine ⟨d0, rfl, fun key hk => ?_⟩
    obtain ⟨val, hval⟩ := Option.isSome_iff_exists.mp (h4 key hk)
    rw [hval]
    simp [bucketList]
  | cons it l ih =>
    intro d0 h4
    cases hcl : classifyItem it with
    | none =>
      obtain ⟨d, hd, hkey⟩ := ih d0 h4
      refine ⟨d, ?_, fun key hk => ?_⟩
      · unfold classifyFold
        rw [hcl]
        exact hd
      · rw [hkey key hk]
        have : bucketList (it :: l) key = bucketList l key := by
          simp [bucketList, List.filterMap_cons, hcl]
        rw [this]
    | some kv =>
      obtain ⟨k, v⟩ := kv
      have hk4 : k ∈ big4 := classifyItem_key_mem hcl
      obtain ⟨l0, hl0⟩ := Option.isSome_iff_exists.mp (h4 k hk4)
      have happ := bucketAppend_ok hl0 (it.idx, v)
      have h4' : ∀ key ∈ big4,
          ((Function.update d0 k (some (l0 ++ [(it.idx, v)]))) key).isSome := by
        intro key hkk
        rw [Function.update_apply]
        by_cases he : key = k
        · rw [if_pos he]; rfl
        · rw [if_neg he]; exact h4 key hkk
      obtain ⟨d, hd, hkey⟩ := ih _ h4'
      refine ⟨d, ?_, fun key hkk => ?_⟩
      · unfold classifyFold
        rw [hcl]
        show (match bucketAppend d0 k (it.idx, v) with
          | .ok d2 => classifyFold l d2
          | .error e => .error e) = Except.ok d
        rw [happ]
        exact hd
      · rw [hkey key hkk]
        by_cases he : key = k
        · rw [he, Function.update_same, hl0]
          have : bucketList (it :: l) k = (it.idx, v) :: bucketList l k := by
            simp [bucketList, List.filterMap_cons, hcl]
          rw [this]
          simp
        · rw [Function.update_noteq he]
          have : bucketList (it :: l) key = bucketList l key := by
            simp only [bucketList, List.filterMap_cons, hcl, Option.some_bind]
            rw [if_neg (fun hk => he (by simpa using hk.symm))]
          rw [this]

/-! ### The per-section re-sort is the identity on already sorted buckets. -/

theorem insertPair_append {a : ℚ × String} {l : List (ℚ × String)}
    (h : ∀ b ∈ l, b.1 ≤ a.1) : insertPair a l = l ++ [a] := by
  induction l with
  | nil => rfl
  | cons b l ih =>
    simp only [insertPair, h b (List.mem_cons_self b l), if_true]
    rw [ih fun x hx => h x (List.mem_cons_of_mem b hx)]
    simp

theorem sortPairs_of_sorted {l : List (ℚ × String)}
    (h : l.Pairwise fun a b => a.1 ≤ b.1) : sortPairs l = l := by
  have key : ∀ (l acc : List (ℚ × String)),
      (∀ x ∈ acc, ∀ y ∈ l, x.1 ≤ y.1) →
      l.Pairwise (fun a b => a.1 ≤ b.1) →
      l.foldl (fun acc a => insertPair a acc) acc = acc ++ l := by
    intro l
    induction l with
    | nil => intro acc _ _; simp
    | cons a l ih =>
      intro acc hcross hl
      obtain ⟨ha, hl'⟩ := List.pairwise_cons.mp hl
      simp only [List.foldl_cons]
      rw [insertPair_append (fun b hb => hcross b hb a (List.mem_cons_self a l))]
      have hcross' : ∀ x ∈ acc ++ [a], ∀ y ∈ l, x.1 ≤ y.1 := by
        intro x hx y hy
        rcases List.mem_append.mp hx with hx | hx
        · exact hcross x hx y (List.mem_cons_of_mem a hy)
        · rw [List.mem_singleton.mp hx]; exact ha y hy
      rw [ih (acc ++ [a]) hcross' hl']
      simp
  have h2 := key l [] (by simp) h
  simpa using h2

theorem bucketList_pairwise (key : String) {l : List ContentItem}
    (h : SortedByKey l) :
    (bucketList l key).Pairwise fun a b => a.1 ≤ b.1 := by
  refine List.Pairwise.filterMap _ (fun a a' hle b hb b' hb' => ?_) h
  have hb1 : b.1 = a.idx := by
    cases hca : classifyItem a with
    | none => rw [hca] at hb; simp at hb
    | some kv =>
      rw [hca] at hb
      by_cases he : kv.1 = key
      · simp only [Option.some_bind, if_pos he, Option.mem_def,
          Option.some_inj] at hb
        rw [← hb]
      · simp [he] at hb
  have hb1' : b'.1 = a'.idx := by
    cases hca : classifyItem a' with
    | none => rw [hca] at hb'; simp at hb'
    | some kv =>
      rw [hca] at hb'
      by_cases he : kv.1 = key
      · simp only [Option.some_bind, if_pos he, Option.mem_def,
          Option.some_inj] at hb'
        rw [← hb']
      · simp [he] at hb'
  rw [hb1, hb1']
  exact hle

/-! ### The alignment output, characterized. -/

/-- The bucket for `key` produced by a full `align_pattern` run: the
sorted items classified pointwise. -/
def alignBucket (items : List ContentItem) (key : String) : List (ℚ × String) :=
  bucketList (sortItems items) key

/-- An output section with the (here provably redundant) per-section
re-sort removed: heading, then contents in bucket order, then the extra
empty piece for the first three sections. -/
def sectionOut (heading : String) (l : List (ℚ × String)) (trailingBlank : Bool) :
    List String :=
  if l.isEmpty then []
  else [heading] ++ l.map Prod.snd ++ (if trailingBlank then [""] else [])

theorem bind_ok {ε α β : Type} (a : α) (f : α → Except ε β) :
    (Except.ok (ε := ε) a).bind f = f a := rfl

theorem sectionPieces_eq_out (heading : String) {l : List (ℚ × String)}
    (tb : Bool) (h : l.Pairwise fun a b => a.1 ≤ b.1) :
    sectionPieces heading l tb = sectionOut heading l tb := by
  unfold sectionPieces sectionOut
  rw [sortPairs_of_sorted h]

/-- Whenever the (defaulted) pattern list contains the three built-in
labels, `align_pattern` succeeds and its output is the `"\n\n"`-join of
the four sections in the fixed order 标题, 正文, 图片说明, 其他内容,
each section listing its bucket in bucket (ascending-key) order. -/
theorem align_pattern_eq (items : List ContentItem)
    (patterns : Option (List String))
    (h1 : "标题" ∈ patterns.getD defaultPatterns)
    (h2 : "正文" ∈ patterns.getD defaultPatterns)
    (h3 : "图片说明" ∈ patterns.getD defaultPatterns) :
    align_pattern items patterns = .ok (String.intercalate "\n\n"
      (sectionOut "# 标题" (alignBucket items "标题") true ++
       sectionOut "# 正文" (alignBucket items "正文") true ++
       sectionOut "# 图片说明" (alignBucket items "图片说明") true ++
       sectionOut "# 其他内容" (alignBucket items "其他") false)) := by
  have h4 : ∀ key ∈ big4,
      ((initBuckets (patterns.getD defaultPatterns)) key).isSome := by
    intro key hkey
    unfold initBuckets
    rw [Function.update_apply]
    by_cases he : key = "其他"
    · rw [if_pos he]; rfl
    · rw [if_neg he]
      have : key = "标题" ∨ key = "正文" ∨ key = "图片说明" ∨ key = "其他" := by
        simpa [big4] using hkey
      rcases this with rfl | rfl | rfl | rfl
      · rw [if_pos h1]; rfl
      · rw [if_pos h2]; rfl
      · rw [if_pos h3]; rfl
      · exact absurd rfl he
  obtain ⟨d, hd, hkey⟩ := classifyFold_ok (sortItems items) _ h4
  have hs : SortedByKey (sortItems items) := sortItems_sorted items
  have hinit : ∀ key,
      ((initBuckets (patterns.getD defaultPatterns)) key).getD [] = [] := by
    intro key
    unfold initBuckets
    rw [Function.update_apply]
    by_cases he : key = "其他"
    · rw [if_pos he]; rfl
    · rw [if_neg he]
      by_cases hm : key ∈ patterns.getD defaultPatterns
      · rw [if_pos hm]; rfl
      · rw [if_neg hm]; rfl
  have hval : ∀ key ∈ big4, d key = some (bucketList (sortItems items) key) := by
    intro key hk
    rw [hkey key hk, hinit key, List.nil_append]
  have hTget : bucketGet d "标题" = .ok (bucketList (sortItems items) "标题") := by
    unfold bucketGet; rw [hval "标题" (by decide)]
  have hBget : bucketGet d "正文" = .ok (bucketList (sortItems items) "正文") := by
    unfold bucketGet; rw [hval "正文" (by decide)]
  have hCget : bucketGet d "图片说明" =
      .ok (bucketList (sortItems items) "图片说明") := by
    unfold bucketGet; rw [hval "图片说明" (by decide)]
  have hOget : bucketGet d "其他" = .ok (bucketList (sortItems items) "其他") := by
    unfold bucketGet; rw [hval "其他" (by decide)]
  unfold align_pattern
  rw [hd, bind_ok, hTget, bind_ok, hBget, bind_ok, hCget, bind_ok, hOget, bind_ok]
  rw [sectionPieces_eq_out _ _ (bucketList_pairwise "标题" hs),
    sectionPieces_eq_out _ _ (bucketList_pairwise "正文" hs),
    sectionPieces_eq_out _ _ (bucketList_pairwise "图片说明" hs),
    sectionPieces_eq_out _ _ (bucketList_pairwise "其他" hs)]
  rfl

/-! ### Remaining helper lemmas for the merge claims. -/

theorem find?_filter_eq {α : Type} (q p : α → Bool) (l : List α)
    (h : ∀ x ∈ l, q x = true → p x = true) :
    (l.filter p).find? q = l.find? q := by
  induction l with
  | nil => rfl
  | cons x xs ih =>
    have ihx := ih fun y hy => h y (List.mem_cons_of_mem x hy)
    by_cases hpx : p x
    · rw [List.filter_cons_of_pos hpx]
      by_cases hqx : q x
      · rw [List.find?_cons_of_pos _ hqx, List.find?_cons_of_pos _ hqx]
      · rw [List.find?_cons_of_neg _ hqx, List.find?_cons_of_neg _ hqx]
        exact ihx
    · rw [List.filter_cons_of_neg hpx]
      have hqx : ¬ q x = true := fun hq => hpx (h x (List.mem_cons_self x xs) hq)
      rw [List.find?_cons_of_neg _ hqx]
      exact ihx

/-- An `"ocr"` item that is blank or whose key matches no `"image"` item
of the list (the two conditions under which `merge` ignores it). -/
def orphanOcr (items : List ContentItem) (it : ContentItem) : Bool :=
  it.ctype == "ocr" &&
    (!nonBlank it.content ||
      !(items.any fun img => img.ctype == "image" && decide (img.idx = it.idx)))

example : merge [] = "" := rfl

example :
    merge [⟨1, "image", "p"⟩, ⟨1, "ocr", "T"⟩] = "T" := by decide

example :
    merge [⟨1, "image", "p"⟩, ⟨mkRat 3 2, "ocr", "T"⟩] = "[图片内容无法识别]" := by
  decide

example :
    merge [⟨1, "image", "p"⟩, ⟨mkRat 3 2, "text", "T"⟩] = "[图片内容无法识别]\n\nT" := by
  decide

example : align_pattern [] none = .ok "" := by decide

example : align_pattern [] (some ["A"]) = .error "标题" := by decide

example :
    align_pattern [⟨1, "text", "hi."⟩, ⟨2, "zzz", "y"⟩] none =
      .ok "# 标题\n\nhi.\n\n\n\n# 其他内容\n\ny" := by decide

example :
    align_pattern [⟨1, "text", "haha。"⟩, ⟨2, "ocr", "在中国"⟩] none =
      .ok "# 标题\n\nhaha。\n\n\n\n# 图片说明\n\n在中国\n\n" := by decide

/-! ## The claims -/

/-- C8: `merge` on the empty list returns the empty string, and on every
input the emitted blocks are joined with exactly the two-newline
separator between consecutive blocks. -/
theorem c8_empty_and_separator :
    merge [] = "" ∧
    (∀ items : List ContentItem,
      merge items = String.intercalate "\n\n" (mergeBlocks items)) ∧
    (∀ (items : List ContentItem) (b1 b2 : String),
      mergeBlocks items = [b1, b2] → merge items = b1 ++ "\n\n" ++ b2) := by
  refine ⟨rfl, merge_eq_intercalate, ?_⟩
  intro items b1 b2 h
  rw [merge_eq_intercalate, h]
  rfl

theorem c8_witness :
    mergeBlocks [⟨1, "text", "a"⟩, ⟨2, "text", "b"⟩] = ["a", "b"] ∧
    merge [⟨1, "text", "a"⟩, ⟨2, "text", "b"⟩] = "a" ++ "\n\n" ++ "b" :=
  ⟨by decide, c8_empty_and_separator.2.2 [⟨1, "text", "a"⟩, ⟨2, "text", "b"⟩]
    "a" "b" (by decide)⟩

/-- C4: `merge` sorts by `order_key` ascending with a stable sort (the
sorted list is ascending, is a permutation of the input, and preserves
the relative order of equal keys), the emitted blocks are read off that
sorted order, and for key-distinct inputs the result is the same for
every input order (callers need not pre-sort). -/
theorem c4_stable_sort_order (items : List ContentItem) :
    SortedByKey (sortItems items) ∧
    List.Perm (sortItems items) items ∧
    (∀ k : ℚ, (sortItems items).filter (fun it => decide (it.idx = k)) =
      items.filter fun it => decide (it.idx = k)) ∧
    mergeBlocks items =
      (sortItems items).filterMap (emitOne (buildOcrMap (sortItems items))) ∧
    (∀ items' : List ContentItem, List.Perm items' items →
      items.Pairwise (fun a b => a.idx ≠ b.idx) → merge items' = merge items) := by
  refine ⟨sortItems_sorted items, sortItems_perm items, sortItems_stable items,
    rfl, ?_⟩
  intro items' hperm hkeys
  have hp : List.Perm (sortItems items') (sortItems items) :=
    (sortItems_perm items').trans (hperm.trans (sortItems_perm items).symm)
  have hne : (sortItems items).Pairwise fun a b => a.idx ≠ b.idx :=
    ((sortItems_perm items).pairwise_iff fun h => Ne.symm h).mpr hkeys
  have hne' : (sortItems items').Pairwise fun a b => a.idx ≠ b.idx :=
    (hp.pairwise_iff fun h => Ne.symm h).mpr hne
  have hlt : (sortItems items).Pairwise fun a b => a.idx < b.idx :=
    ((sortItems_sorted items).and hne).imp fun h => lt_of_le_of_ne h.1 h.2
  have hlt' : (sortItems items').Pairwise fun a b => a.idx < b.idx :=
    ((sortItems_sorted items').and hne').imp fun h => lt_of_le_of_ne h.1 h.2
  haveI : IsAntisymm ContentItem fun a b => a.idx < b.idx :=
    ⟨fun a b h1 h2 => absurd (h1.trans h2) (lt_irrefl _)⟩
  have heq : sortItems items' = sortItems items :=
    List.eq_of_perm_of_sorted hp hlt' hlt
  rw [merge_eq_intercalate, merge_eq_intercalate]
  unfold mergeBlocks
  rw [heq]

theorem c4_witness :
    merge [⟨2, "text", "b"⟩, ⟨1, "text", "a"⟩] =
      merge [⟨1, "text", "a"⟩, ⟨2, "text", "b"⟩] :=
  (c4_stable_sort_order [⟨1, "text", "a"⟩, ⟨2, "text", "b"⟩]).2.2.2.2
    [⟨2, "text", "b"⟩, ⟨1, "text", "a"⟩] (by decide) (by decide)

/-- C6: each input item contributes at most one emitted block (the block
list is never longer than the input), a whitespace-only `"text"` item
emits nothing, and every emitted block is non-blank, so no blank line is
ever produced by a whitespace-only text item. -/
theorem c6_no_duplicate_no_blank (items : List ContentItem) :
    (mergeBlocks items).length ≤ items.length ∧
    (∀ (m : OcrMap) (it : ContentItem), it.ctype = "text" →
      nonBlank it.content = false → emitOne m it = none) ∧
    (∀ b ∈ mergeBlocks items, nonBlank b = true) := by
  refine ⟨?_, fun m it h hb => emitOne_blank_text m h hb, ?_⟩
  · calc (mergeBlocks items).length ≤ (sortItems items).length :=
        List.length_filterMap_le _ _
      _ = items.length := (sortItems_perm items).length_eq
  · intro b hb
    obtain ⟨it, hit, hemit⟩ := List.mem_filterMap.mp hb
    by_cases h1 : (it.ctype == "text" && nonBlank it.content) = true
    · unfold emitOne at hemit
      rw [if_pos h1] at hemit
      obtain ⟨-, hnb⟩ := Bool.and_eq_true_iff.mp h1
      rw [← Option.some_inj.mp hemit]
      exact hnb
    · by_cases h2 : (it.ctype == "image") = true
      · rw [emitOne_image _ (eq_of_beq h2)] at hemit
        cases hm : buildOcrMap (sortItems items) it.content with
        | some t =>
          rw [hm] at hemit
          simp only [Option.getD_some, Option.some_inj] at hemit
          rw [← hemit]
          exact buildOcrMap_nonBlank hm
        | none =>
          rw [hm] at hemit
          simp only [Option.getD_none, Option.some_inj] at hemit
          rw [← hemit]
          decide
      · unfold emitOne at hemit
        rw [if_neg h1, if_neg h2] at hemit
        cases hemit

theorem c6_witness :
    emitOne emptyOcrMap ⟨2, "text", " "⟩ = none ∧
    (mergeBlocks [⟨1, "text", "a"⟩, ⟨2, "text", " "⟩]).length ≤ 2 ∧
    (∀ b ∈ mergeBlocks [⟨1, "text", "a"⟩, ⟨2, "text", " "⟩], nonBlank b = true) :=
  ⟨(c6_no_duplicate_no_blank []).2.1 emptyOcrMap ⟨2, "text", " "⟩ rfl (by decide),
    (c6_no_duplicate_no_blank [⟨1, "text", "a"⟩, ⟨2, "text", " "⟩]).1,
    (c6_no_duplicate_no_blank [⟨1, "text", "a"⟩, ⟨2, "text", " "⟩]).2.2⟩

/-- C10: `merge` never emits an `"ocr"` item as its own block, and
dropping every `"ocr"` item that is blank or whose key equals no
`"image"` item's key leaves the output unchanged — such items are
silently lost. -/
theorem c10_orphan_ocr_lost (items : List ContentItem) :
    (∀ (m : OcrMap) (it : ContentItem), it.ctype = "ocr" → emitOne m it = none) ∧
    merge (items.filter fun it => !orphanOcr items it) = merge items := by
  refine ⟨fun m it h => emitOne_ocr m h, ?_⟩
  have hfind : ∀ k : ℚ,
      findImage ((sortItems items).filter fun it => !orphanOcr items it) k =
        findImage (sortItems items) k := by
    intro k
    unfold findImage
    refine find?_filter_eq _ _ _ fun x hx hqx => ?_
    obtain ⟨hximg, -⟩ := Bool.and_eq_true_iff.mp hqx
    have hx' : x.ctype = "image" := eq_of_beq hximg
    simp [orphanOcr, hx']
  have horphan : ∀ x, (!orphanOcr items x) = false → orphanOcr items x = true :=
    fun x hx => by simpa using hx
  have hOcrStep :
      ocrStep ((sortItems items).filter fun it => !orphanOcr items it) =
        ocrStep (sortItems items) := by
    funext m x
    unfold ocrStep
    rw [hfind]
  have hmap :
      buildOcrMap (sortItems (items.filter fun it => !orphanOcr items it)) =
        buildOcrMap (sortItems items) := by
    rw [← sortItems_filter]
    unfold buildOcrMap
    rw [hOcrStep]
    refine foldl_filter_noop _ _ _ ?_ _
    intro x hx hpx acc
    have ho : orphanOcr items x = true := horphan x hpx
    obtain ⟨hocr, hrest⟩ := Bool.and_eq_true_iff.mp ho
    unfold ocrStep
    by_cases hc : (x.ctype == "ocr" && nonBlank x.content) = true
    · rw [if_pos hc]
      obtain ⟨-, hnb⟩ := Bool.and_eq_true_iff.mp hc
      have hany :
          (items.any fun img => img.ctype == "image" && decide (img.idx = x.idx))
            = false := by
        have hrest' := hrest
        simp only [Bool.or_eq_true] at hrest'
        rcases hrest' with hb | hb
        · rw [hnb] at hb; cases hb
        · simpa using hb
      have hnone : findImage (sortItems items) x.idx = none := by
        rw [findImage, List.find?_eq_none]
        intro y hy hqy
        have hy' : y ∈ items := (sortItems_perm items).mem_iff.mp hy
        have hcontra := (List.any_eq_true
          (p := fun img => img.ctype == "image" && decide (img.idx = x.idx))).mpr
          ⟨y, hy', hqy⟩
        rw [hany] at hcontra
        cases hcontra
      rw [hnone]
    · rw [if_neg hc]
  rw [merge_eq_intercalate, merge_eq_intercalate]
  unfold mergeBlocks
  rw [hmap, ← sortItems_filter]
  rw [filterMap_filter_eq (emitOne (buildOcrMap (sortItems items)))
    (fun it => !orphanOcr items it) (sortItems items) fun x hx hpx => by
      obtain ⟨hocr, -⟩ := Bool.and_eq_true_iff.mp (horphan x hpx)
      exact emitOne_ocr _ (eq_of_beq hocr)]

theorem c10_witness :
    emitOne emptyOcrMap ⟨1, "ocr", "T"⟩ = none ∧
    merge (List.filter (fun it => !orphanOcr [⟨1, "text", "a"⟩, ⟨2, "ocr", "T"⟩] it)
        [⟨1, "text", "a"⟩, ⟨2, "ocr", "T"⟩]) =
      merge [⟨1, "text", "a"⟩, ⟨2, "ocr", "T"⟩] :=
  ⟨(c10_orphan_ocr_lost []).1 emptyOcrMap ⟨1, "ocr", "T"⟩ rfl,
    (c10_orphan_ocr_lost [⟨1, "text", "a"⟩, ⟨2, "ocr", "T"⟩]).2⟩

/-- C1 counterexample: an `"ocr"` item carrying the fractional key
`k + 0.5` (here `3/2` for the image at key `1`) does NOT substitute its
text for the image: `merge` emits the placeholder, not the OCR text, so
the claim's `k+0.5` attachment convention is not supported by `merge`. -/
theorem c1_counterexample :
    merge [⟨1, "image", "p"⟩, ⟨mkRat 3 2, "ocr", "T"⟩] = "[图片内容无法识别]" ∧
    merge [⟨1, "image", "p"⟩, ⟨mkRat 3 2, "ocr", "T"⟩] ≠ "T" := by
  constructor
  · decide
  · decide

/-- C1 (amended): `merge` substitutes OCR text for an image only under
the exact-key convention.  For an input whose image keys are pairwise
distinct and whose image payloads are pairwise distinct, an `"image"`
item emits a block in its sorted position: the text of a non-blank
`"ocr"` item sharing the image's exact key, when one exists, and the
fixed placeholder string otherwise (in particular when the only OCR item
carries the `k + 0.5` key). -/
theorem c1_exact_key_substitution (items : List ContentItem) (i : ContentItem)
    (hkeys : ∀ a ∈ items, ∀ b ∈ items, a.ctype = "image" → b.ctype = "image" →
      a.idx = b.idx → a = b)
    (hpaths : ∀ a ∈ items, ∀ b ∈ items, a.ctype = "image" → b.ctype = "image" →
      a.content = b.content → a = b)
    (hi : i ∈ items) (himg : i.ctype = "image") :
    ∃ b, emitOne (buildOcrMap (sortItems items)) i = some b ∧
      b ∈ mergeBlocks items ∧
      ((∃ o ∈ items, o.ctype = "ocr" ∧ nonBlank o.content = true ∧
          o.idx = i.idx ∧ b = o.content) ∨
        ((∀ o ∈ items, o.ctype = "ocr" → nonBlank o.content = true →
          o.idx ≠ i.idx) ∧ b = placeholder)) := by
  have hi' : i ∈ sortItems items := (sortItems_perm items).mem_iff.mpr hi
  have hemit := emitOne_image (buildOcrMap (sortItems items)) himg
  refine ⟨(buildOcrMap (sortItems items) i.content).getD placeholder, hemit,
    List.mem_filterMap.mpr ⟨i, hi', hemit⟩, ?_⟩
  cases hm : buildOcrMap (sortItems items) i.content with
  | some t =>
    obtain ⟨o, ho, hocr, hnb, ht, img, hfind, hpath⟩ := buildOcrMap_some hm
    obtain ⟨himgmem, himgkind, himgidx⟩ := findImage_spec hfind
    have himgmem' : img ∈ items := (sortItems_perm items).mem_iff.mp himgmem
    have himgi : img = i := hpaths img himgmem' i hi himgkind himg hpath
    have ho' : o ∈ items := (sortItems_perm items).mem_iff.mp ho
    refine Or.inl ⟨o, ho', hocr, hnb, ?_, by rw [ht]; rfl⟩
    rw [← himgidx, himgi]
  | none =>
    refine Or.inr ⟨?_, rfl⟩
    intro o ho hocr hnb hidx
    obtain ⟨img, hfind⟩ := findImage_isSome hi' himg
    obtain ⟨himgmem, himgkind, himgidx⟩ := findImage_spec hfind
    have himgmem' : img ∈ items := (sortItems_perm items).mem_iff.mp himgmem
    have himgi : img = i := hkeys img himgmem' i hi himgkind himg himgidx
    have ho' : o ∈ sortItems items := (sortItems_perm items).mem_iff.mpr ho
    have hfind' : findImage (sortItems items) o.idx = some img := by
      rw [hidx]; exact hfind
    have hsome := buildOcrMap_isSome ho' hocr hnb hfind' (by rw [himgi])
    rw [hm] at hsome
    cases hsome

theorem c1_witness :
    ∃ b, emitOne (buildOcrMap (sortItems [⟨1, "image", "p"⟩, ⟨1, "ocr", "T"⟩]))
        ⟨1, "image", "p"⟩ = some b ∧
      b ∈ mergeBlocks [⟨1, "image", "p"⟩, ⟨1, "ocr", "T"⟩] ∧
      ((∃ o ∈ [(⟨1, "image", "p"⟩ : ContentItem), ⟨1, "ocr", "T"⟩],
          o.ctype = "ocr" ∧ nonBlank o.content = true ∧
          o.idx = (⟨1, "image", "p"⟩ : ContentItem).idx ∧ b = o.content) ∨
        ((∀ o ∈ [(⟨1, "image", "p"⟩ : ContentItem), ⟨1, "ocr", "T"⟩],
          o.ctype = "ocr" → nonBlank o.content = true →
          o.idx ≠ (⟨1, "image", "p"⟩ : ContentItem).idx) ∧ b = placeholder)) :=
  c1_exact_key_substitution [⟨1, "image", "p"⟩, ⟨1, "ocr", "T"⟩]
    ⟨1, "image", "p"⟩ (by decide) (by decide) (by decide) rfl

/-- C9: the extraction pipeline appends a successful OCR result as a
`"text"` item at key `k + 0.5` (`__init__.py` line 154), and `merge` on
an input of that shape — an image at key `k` with no matching `"ocr"`
item, a non-blank `"text"` item at `k + 0.5`, and no other item in the
window `[k, k + 0.5]` — emits the placeholder for the image immediately
followed by the OCR text block. -/
theorem c9_pipeline_text_after_placeholder (items : List ContentItem)
    (i t : ContentItem) (k : ℚ)
    (hi : i ∈ items) (himg : i.ctype = "image") (hik : i.idx = k)
    (ht : t ∈ items) (htxt : t.ctype = "text") (htk : t.idx = k + 1/2)
    (htnb : nonBlank t.content = true)
    (hnoocr : ∀ o ∈ items, o.ctype = "ocr" → nonBlank o.content = true →
      o.idx ≠ k)
    (hpaths : ∀ a ∈ items, ∀ b ∈ items, a.ctype = "image" → b.ctype = "image" →
      a.content = b.content → a = b)
    (hwindow : ∀ x ∈ items, x = i ∨ x = t ∨ x.idx < k ∨ k + 1/2 < x.idx) :
    ∃ A B, mergeBlocks items = A ++ placeholder :: t.content :: B := by
  have hi' : i ∈ sortItems items := (sortItems_perm items).mem_iff.mpr hi
  have ht' : t ∈ sortItems items := (sortItems_perm items).mem_iff.mpr ht
  obtain ⟨A, B, hsplit⟩ := sorted_split hik htk (sortItems items)
    (sortItems_sorted items) hi' ht'
    fun x hx => hwindow x ((sortItems_perm items).mem_iff.mp hx)
  have hmnone : buildOcrMap (sortItems items) i.content = none := by
    refine buildOcrMap_none fun o ho hocr hnb img hfind hpath => ?_
    obtain ⟨himgmem, himgkind, himgidx⟩ := findImage_spec hfind
    have himgmem' : img ∈ items := (sortItems_perm items).mem_iff.mp himgmem
    have himgi : img = i := hpaths img himgmem' i hi himgkind himg hpath
    have ho' : o ∈ items := (sortItems_perm items).mem_iff.mp ho
    refine hnoocr o ho' hocr hnb ?_
    rw [← himgidx, himgi, hik]
  have hei : emitOne (buildOcrMap (sortItems items)) i = some placeholder := by
    rw [emitOne_image _ himg, hmnone]
    rfl
  have het : emitOne (buildOcrMap (sortItems items)) t = some t.content :=
    emitOne_text _ htxt htnb
  refine ⟨A.filterMap (emitOne (buildOcrMap (sortItems items))),
    B.filterMap (emitOne (buildOcrMap (sortItems items))), ?_⟩
  unfold mergeBlocks
  set M := buildOcrMap (sortItems items) with hM
  rw [hsplit, List.filterMap_append, List.filterMap_cons, List.filterMap_cons,
    hei, het]

theorem c9_witness :
    ∃ A B, mergeBlocks [⟨1, "image", "p"⟩, ⟨(1 : ℚ) + 1/2, "text", "T"⟩] =
      A ++ placeholder :: "T" :: B :=
  c9_pipeline_text_after_placeholder
    [⟨1, "image", "p"⟩, ⟨(1 : ℚ) + 1/2, "text", "T"⟩]
    ⟨1, "image", "p"⟩ ⟨(1 : ℚ) + 1/2, "text", "T"⟩ 1
    (List.Mem.head _) rfl rfl
    (List.Mem.tail _ (List.Mem.head _)) rfl rfl (by decide)
    (by
      intro o ho hocr _
      rcases List.mem_cons.mp ho with rfl | ho2
      · exact absurd hocr (by decide)
      · rcases List.mem_cons.mp ho2 with rfl | ho3
        · exact absurd hocr (by decide)
        · cases ho3)
    (by
      intro a ha b hb ha2 hb2 _
      rcases List.mem_cons.mp ha with rfl | ha'
      · rcases List.mem_cons.mp hb with rfl | hb'
        · rfl
        · rcases List.mem_cons.mp hb' with rfl | hb''
          · exact absurd hb2 (by decide)
          · cases hb''
      · rcases List.mem_cons.mp ha' with rfl | ha''
        · exact absurd ha2 (by decide)
        · cases ha'')
    (by
      intro x hx
      rcases List.mem_cons.mp hx with rfl | hx'
      · exact Or.inl rfl
      · rcases List.mem_cons.mp hx' with rfl | hx''
        · exact Or.inr (Or.inl rfl)
        · cases hx'')

/-- C2 counterexample: with a non-empty 标题 section followed by a
non-empty 其他 section, the pieces adjacent across the section border are
separated by FOUR newlines (the loop appends an extra empty piece after
the 标题 section), not by the single blank line the claim requires. -/
theorem c2_counterexample :
    align_pattern [⟨1, "text", "hi."⟩, ⟨2, "zzz", "y"⟩] none =
      .ok ("# 标题\n\nhi." ++ "\n\n\n\n" ++ "# 其他内容\n\ny") ∧
    "# 标题\n\nhi." ++ "\n\n\n\n" ++ "# 其他内容\n\ny" ≠
      String.intercalate "\n\n" ["# 标题", "hi.", "# 其他内容", "y"] := by
  constructor
  · decide
  · decide

/-- C2 (amended): under the default categories the sections appear in the
fixed order 标题, 正文, 图片说明, 其他内容, empty buckets are omitted,
each section is a heading followed by its items in ascending original-key
order, and pieces are joined with `"\n\n"` — but each non-empty
标题/正文/图片说明 section contributes one extra empty piece after its
items, so consecutive sections are separated by two blank lines (and the
output gains a trailing `"\n\n"` when the last non-empty section is not
其他). -/
theorem c2_sectioned_output (items : List ContentItem) :
    align_pattern items none = .ok (String.intercalate "\n\n"
      (sectionOut "# 标题" (alignBucket items "标题") true ++
       sectionOut "# 正文" (alignBucket items "正文") true ++
       sectionOut "# 图片说明" (alignBucket items "图片说明") true ++
       sectionOut "# 其他内容" (alignBucket items "其他") false)) ∧
    (∀ key : String, (alignBucket items key).Pairwise fun a b => a.1 ≤ b.1) :=
  ⟨align_pattern_eq items none (by decide) (by decide) (by decide),
    fun key => bucketList_pairwise key (sortItems_sorted items)⟩

/-- C3 counterexample: a caller-supplied category list lacking the
hard-coded labels makes `align_pattern` raise a `KeyError` — even on
empty input, and on a plain text item with three custom labels. -/
theorem c3_counterexample :
    align_pattern [] (some ["A"]) = .error "标题" ∧
    align_pattern [⟨1, "text", "hi."⟩] (some ["A", "B", "C"]) = .error "标题" := by
  constructor
  · decide
  · decide

/-- C3 (amended): `align_pattern` completes without error whenever the
(defaulted) pattern list still contains the three built-in labels
标题/正文/图片说明 (in particular always with the default categories);
empty input yields empty output; and a non-blank item of any unknown kind
falls into the 其他 catch-all bucket.  A custom label list missing one of
the built-in labels instead raises `KeyError`. -/
theorem c3_align_totality (items : List ContentItem)
    (patterns : Option (List String)) :
    ("标题" ∈ patterns.getD defaultPatterns →
      "正文" ∈ patterns.getD defaultPatterns →
      "图片说明" ∈ patterns.getD defaultPatterns →
      ∃ s, align_pattern items patterns = .ok s) ∧
    align_pattern [] none = .ok "" ∧
    (∀ it : ContentItem, nonBlank it.content = true → it.ctype ≠ "text" →
      it.ctype ≠ "image" → it.ctype ≠ "ocr" →
      classifyItem it = some ("其他", it.content)) := by
  refine ⟨fun h1 h2 h3 => ⟨_, align_pattern_eq items patterns h1 h2 h3⟩,
    by decide, ?_⟩
  intro it hnb ht hi ho
  have h1 : (it.ctype == "text") = false := beq_eq_false_iff_ne.mpr ht
  have h2 : (it.ctype == "image") = false := beq_eq_false_iff_ne.mpr hi
  have h3 : (it.ctype == "ocr") = false := beq_eq_false_iff_ne.mpr ho
  simp [classifyItem, hnb, h1, h2, h3]

theorem c3_witness : ∃ s, align_pattern [] none = .ok s :=
  (c3_align_totality [] none).1 (by decide) (by decide) (by decide)

/-- C5: the classification is per-item (buckets distribute over list
concatenation) and follows the heuristic: a blank item is dropped; a
`"text"` item of length < 100 whose stripped content ends in one of
。 . ! ? is 标题; otherwise a `"text"` item containing 图 with
length < 200 is 图片说明; otherwise a `"text"` item is 正文; an `"ocr"`
item is 图片说明; an `"image"` item is 其他 rendered as a bracketed
reference. -/
theorem c5_classification_heuristic (it : ContentItem) :
    (nonBlank it.content = false → classifyItem it = none) ∧
    (it.ctype = "text" → nonBlank it.content = true →
      it.content.length < 100 → endsSentence (pyStrip it.content) = true →
      classifyItem it = some ("标题", it.content)) ∧
    (it.ctype = "text" → nonBlank it.content = true →
      ¬(it.content.length < 100 ∧ endsSentence (pyStrip it.content) = true) →
      it.content.data.contains '图' = true → it.content.length < 200 →
      classifyItem it = some ("图片说明", it.content)) ∧
    (it.ctype = "text" → nonBlank it.content = true →
      ¬(it.content.length < 100 ∧ endsSentence (pyStrip it.content) = true) →
      ¬(it.content.data.contains '图' = true ∧ it.content.length < 200) →
      classifyItem it = some ("正文", it.content)) ∧
    (it.ctype = "ocr" → nonBlank it.content = true →
      classifyItem it = some ("图片说明", it.content)) ∧
    (it.ctype = "image" → nonBlank it.content = true →
      classifyItem it = some ("其他", "[图片: " ++ it.content ++ "]")) ∧
    (∀ (l1 l2 : List ContentItem) (key : String),
      bucketList (l1 ++ l2) key = bucketList l1 key ++ bucketList l2 key) := by
  refine ⟨?_, ?_, ?_, ?_, ?_, ?_, ?_⟩
  · intro hb
    simp [classifyItem, hb]
  · intro htxt hnb h100 hes
    simp [classifyItem, htxt, hnb, decide_eq_true h100, hes]
  · intro htxt hnb hnot hcont h200
    have hcond : (decide (it.content.length < 100) &&
        endsSentence (pyStrip it.content)) = false := by
      by_cases hA : it.content.length < 100
      · cases hB : endsSentence (pyStrip it.content) with
        | true => exact absurd ⟨hA, hB⟩ hnot
        | false => simp [hB]
      · simp [decide_eq_false hA]
    simp [classifyItem, htxt, hnb, hcond, hcont, decide_eq_true h200]
    simpa using hcont
  · intro htxt hnb hnot1 hnot2
    have hcond1 : (decide (it.content.length < 100) &&
        endsSentence (pyStrip it.content)) = false := by
      by_cases hA : it.content.length < 100
      · cases hB : endsSentence (pyStrip it.content) with
        | true => exact absurd ⟨hA, hB⟩ hnot1
        | false => simp [hB]
      · simp [decide_eq_false hA]
    have hcond2 : (it.content.data.contains '图' &&
        decide (it.content.length < 200)) = false := by
      cases hC : it.content.data.contains '图' with
      | true =>
        by_cases hD : it.content.length < 200
        · exact absurd ⟨hC, hD⟩ hnot2
        · simp [decide_eq_false hD]
      | false => simp
    simp [classifyItem, htxt, hnb, hcond1, hcond2]
    intro hmem
    have hC : it.content.data.contains '图' = true := by simpa using hmem
    rw [hC] at hcond2
    simp only [Bool.true_and] at hcond2
    exact le_of_not_lt (of_decide_eq_false hcond2)
  · intro hocr hnb
    simp [classifyItem, hocr, hnb]
  · intro himg hnb
    simp [classifyItem, himg, hnb]
  · intro l1 l2 key
    unfold bucketList
    exact List.filterMap_append _ _ _

theorem c5_witness :
    classifyItem ⟨1, "text", "haha。"⟩ = some ("标题", "haha。") ∧
    classifyItem ⟨2, "ocr", "X"⟩ = some ("图片说明", "X") ∧
    classifyItem ⟨3, "image", "p"⟩ = some ("其他", "[图片: " ++ "p" ++ "]") :=
  ⟨(c5_classification_heuristic ⟨1, "text", "haha。"⟩).2.1 rfl (by decide)
      (by decide) (by decide),
    (c5_classification_heuristic ⟨2, "ocr", "X"⟩).2.2.2.2.1 rfl (by decide),
    (c5_classification_heuristic ⟨3, "image", "p"⟩).2.2.2.2.2.1 rfl (by decide)⟩

/-- C7 counterexample: when the image exists and opens but recognition
fails (`model.chat` raises), `process_single_image` returns the non-empty
sentinel `"【图片文字无法识别】"`, not the empty string the claim
requires for a recognition failure. -/
theorem c7_counterexample :
    process_single_image ⟨true, true, true, .error ()⟩ = "【图片文字无法识别】" ∧
    "【图片文字无法识别】" ≠ "" := by
  constructor
  · decide
  · decide

/-- C7 (amended): `process_single_image` always returns a string, and
returns the empty string exactly when the image file is missing or cannot
be opened; when the image opens but set-up or recognition fails, or the
model returns a blank result, it returns the non-empty sentinel
`"【图片文字无法识别】"` instead. -/
theorem c7_empty_iff_open_failure (env : OcrEnv) :
    (process_single_image env = "" ↔
      env.pathExists = false ∨ env.canOpen = false) ∧
    (env.pathExists = true → env.canOpen = true →
      (env.setupOk = false ∨ env.chat = .error () ∨
        (∃ r, env.chat = .ok r ∧ pyStrip r = "")) →
      process_single_image env = ocrFailText) := by
  obtain ⟨pe, co, so, chat⟩ := env
  cases pe with
  | false =>
    exact ⟨⟨fun _ => Or.inl rfl, fun _ => rfl⟩, fun hpe => Bool.noConfusion hpe⟩
  | true =>
    cases co with
    | false =>
      exact ⟨⟨fun _ => Or.inr rfl, fun _ => rfl⟩,
        fun _ hco => Bool.noConfusion hco⟩
    | true =>
      have hne : process_single_image ⟨true, true, so, chat⟩ ≠ "" := by
        show process_with_got_ocr ⟨true, true, so, chat⟩ ≠ ""
        unfold process_with_got_ocr
        cases so with
        | false =>
          show ocrFailText ≠ ""
          decide
        | true =>
          cases chat with
          | error e =>
            show ocrFailText ≠ ""
            decide
          | ok r =>
            show (if (r == "" || pyStrip r == "") = true
                then ocrFailText else r) ≠ ""
            by_cases hr : (r == "" || pyStrip r == "") = true
            · rw [if_pos hr]; decide
            · rw [if_neg hr]
              intro hre
              rw [hre] at hr
              exact hr (by decide)
      refine ⟨⟨fun h => absurd h hne, fun h => ?_⟩, fun _ _ hbad => ?_⟩
      · rcases h with h | h <;> exact Bool.noConfusion h
      · show process_with_got_ocr ⟨true, true, so, chat⟩ = ocrFailText
        unfold process_with_got_ocr
        rcases hbad with hso | hchat | ⟨r, hchat, hblank⟩
        · have hso' : so = false := hso
          rw [hso']
          rfl
        · have hchat' : chat = .error () := hchat
          rw [hchat']
          cases so <;> rfl
        · have hchat' : chat = .ok r := hchat
          rw [hchat']
          cases so with
          | false => rfl
          | true =>
            show (if (r == "" || pyStrip r == "") = true
                then ocrFailText else r) = ocrFailText
            rw [if_pos (by rw [hblank]; simp)]

theorem c7_witness :
    process_single_image ⟨false, true, true, .ok "x"⟩ = "" ∧
    process_single_image ⟨true, true, true, .ok " "⟩ = ocrFailText :=
  ⟨(c7_empty_iff_open_failure ⟨false, true, true, .ok "x"⟩).1.mpr (Or.inl rfl),
    (c7_empty_iff_open_failure ⟨true, true, true, .ok " "⟩).2 rfl rfl
      (Or.inr (Or.inr ⟨" ", rfl, by decide⟩))⟩

end PicTextify
